import Mathlib

/-!
# Ganymede: schedule look-ups and argument validation

A shallow embedding of `src/tools.js`, `src/util/BaseDB.js`,
`src/util/FileDb.js`, `src/util/Discord.js` and `src/util/MongoDb.js`.  The
helper functions `getTeamShortName` and `eventIncludesTeam` of `tools.js` and
of `BaseDB.js` are the same text and one definition stands for both; the
tables of `BaseDB.js` are transcribed a second time, under `BaseDB`.

JavaScript strings are modelled by Lean `String`s.  `===` on strings is
equality, `toLowerCase` is modelled on the ASCII letters (the tables and the
dataset of the repository are ASCII), and the relational operators on two
strings compare UTF-16 code units lexicographically.  `undefined` is `none`.
-/

namespace Ganymede

/-! ## Strings -/

/-- The index of the last occurrence of `c` in `cs`, or `-1` when there is
none: `String.prototype.lastIndexOf` with a one-character pattern. -/
def lastIndexOf (c : Char) : List Char → Int
  | [] => -1
  | x :: xs =>
    let r := lastIndexOf c xs
    if r = -1 then (if x = c then 0 else -1) else r + 1

/-- The characters from position `start` on: `String.prototype.substring`
with one argument, where a negative start counts as `0`. -/
def substring (cs : List Char) (start : Int) : List Char :=
  cs.drop start.toNat

/-- Lower-casing of a string, `String.prototype.toLowerCase`, on ASCII
letters; every other character is kept. -/
def toLowerCase (s : String) : String :=
  String.mk (s.data.map Char.toLower)

/-- The UTF-16 code units of one character. -/
def utf16Units (c : Char) : List Nat :=
  if c.toNat < 0x10000 then [c.toNat]
  else [0xD800 + (c.toNat - 0x10000) / 0x400, 0xDC00 + (c.toNat - 0x10000) % 0x400]

/-- The UTF-16 code units of a string, the sequence JavaScript compares. -/
def utf16 (s : String) : List Nat :=
  s.data.flatMap utf16Units

/-- The test `a <= b` on two strings: lexicographic on code units. -/
def strLe (a b : String) : Bool :=
  decide (utf16 a ≤ utf16 b)

/-- The test `a >= b` on two strings. -/
def strGe (a b : String) : Bool :=
  strLe b a

/-- Truthiness of an optional string argument: `undefined` and the empty
string are falsy, every other string is truthy. -/
def truthy : Option String → Bool
  | none => false
  | some s => s != ""

/-! ## Helper data (`src/tools.js` lines 7-115, `src/util/BaseDB.js` lines 5-113) -/

/-- The roster, in the order of the source. -/
def teamNames : List String :=
  [ "Atlanta Reign",
    "Boston Uprising",
    "Chengou Hunters",
    "Dallas Fuel",
    "Florida Mayhem",
    "Guangzhou Charge",
    "Hangzhou Spark",
    "Houston Outlaws",
    "London Spitfire",
    "Los Angeles Gladiators",
    "Los Angeles Valiant",
    "New York Excelsior",
    "Paris Eternal",
    "Philadelphia Fusion",
    "San Francisco Shock",
    "Seoul Dynasty",
    "Shanghai Dragons",
    "Toronto Defiant",
    "Vancouver Titans",
    "Washington Justice" ]

/-- One entry of the logo table: the full team name and the file name of the
logo below `logosPath`. -/
structure Logo where
  name : String
  path : String
  deriving DecidableEq

/-- The own properties of the object literal `teamLogos`, in source order. -/
def teamLogos : List (String × Logo) :=
  [ ("reign", ⟨"Atlanta Reign", "Atlanta_Reign.png"⟩),
    ("uprising", ⟨"Boston Uprising", "Boston_Uprising.png"⟩),
    ("hunters", ⟨"Chengdu Hunters", "Chengdu_Hungers.png"⟩),
    ("fuel", ⟨"Dallas Fuel", "Dallas_Fuel.png"⟩),
    ("mayhem", ⟨"Florida Mayhem", "Florida_Mayhem.png"⟩),
    ("charge", ⟨"Guangzhou Charge", "Guangzhou_Charge.png"⟩),
    ("spark", ⟨"Hangzhou Spark", "Hangzhou_Spark.png"⟩),
    ("outlaws", ⟨"Houston Outlaws", "Houston_Outlaws.png"⟩),
    ("spitfire", ⟨"London Spitfire", "London_Spitfire.png"⟩),
    ("gladiators", ⟨"Los Angeles Gladiators", "Los_Angeles_Gladiators.png"⟩),
    ("valiant", ⟨"Los Angeles Valiant", "Los_Angeles_Valiant.png"⟩),
    ("excelsior", ⟨"New York Excelsior", "New_York_Excelsior.png"⟩),
    ("eternal", ⟨"Paris Eternal", "Paris_Eternal.png"⟩),
    ("fusion", ⟨"Philadelphia Fusion", "Philadelphia_Fusion.png"⟩),
    ("shock", ⟨"San Francisco Shock", "San_Francisco_Shock.png"⟩),
    ("dynasty", ⟨"Seoul Dynasty", "Seoul_Dynasty.png"⟩),
    ("dragons", ⟨"Shanghai Dragons", "Shanghai_Dragons.png"⟩),
    ("titans", ⟨"Vancouver Titans", "Vancouver_Titans.png"⟩),
    ("justice", ⟨"Washington Justice", "Washington_Justice.png"⟩) ]

/-- The keys of `teamLogos`. -/
def teamLogoKeys : List String :=
  teamLogos.map Prod.fst

/-- The entry stored in `teamLogos` under a key, if there is one. -/
def teamLogoEntry (key : String) : Option Logo :=
  (teamLogos.find? (fun kv => kv.1 == key)).map Prod.snd

/-- The properties every object literal inherits from `Object.prototype`;
reading any of them gives a value other than `undefined`. -/
def objectPrototypeProps : List String :=
  [ "constructor", "__defineGetter__", "__defineSetter__", "hasOwnProperty",
    "__lookupGetter__", "__lookupSetter__", "isPrototypeOf",
    "propertyIsEnumerable", "toString", "valueOf", "__proto__",
    "toLocaleString" ]

/-- The test `teamLogos[key] !== undefined`, where an `undefined` key reads
the property named `undefined`: own properties first, then the inherited
ones. -/
def teamLogosDefined (key : Option String) : Bool :=
  let k := key.getD "undefined"
  teamLogoKeys.contains k || objectPrototypeProps.contains k

/-! ## Schedule records -/

/-- An event: `{time, away, home}`. -/
structure Event where
  time : String
  away : String
  home : String
  deriving DecidableEq

/-- A day of the schedule: `{date, events}`. -/
structure DayInfo where
  date : String
  events : List Event
  deriving DecidableEq

/-- An entry of a team schedule: `{date, event}`. -/
structure EventInfo where
  date : String
  event : Event
  deriving DecidableEq

/-- The first argument of `eventIncludesTeam`: a plain event, whose `event`
property is `undefined`, or a record with an `event` property. -/
inductive EventArg where
  | plain (e : Event)
  | info (i : EventInfo)
  deriving DecidableEq

/-! ## Helper functions (`src/tools.js` lines 128-152) -/

/-- Source `getTeamShortName`:
`team.substring(team.lastIndexOf(' ') + 1)`. -/
def getTeamShortName (team : String) : String :=
  String.mk (substring team.data (lastIndexOf ' ' team.data + 1))

/-- Source `eventIncludesTeam`. -/
def eventIncludesTeam (event : EventArg) (teamName : String) : Bool :=
  let event := match event with
    | .info i => i.event
    | .plain e => e
  event.away == teamName ||
    event.home == teamName ||
    getTeamShortName event.away == teamName ||
    getTeamShortName event.home == teamName

/-! ## Numbers

`isNaN(val)`, `val >= 0` and `val < teamNames.length` convert the string
`val` to a number first.  The conversion is modelled by the grammar of
string numeric literals; the value is kept exact, as a sign, a natural
mantissa and a power of ten, and the two comparisons account for the
rounding of that value to the nearest double. -/

/-- The value of a string converted to a number: not a number, an infinity,
or the value `± mant * 10 ^ exp` that is then rounded to a double. -/
inductive JSNumber where
  | nan
  | inf (neg : Bool)
  | fin (neg : Bool) (mant : Nat) (exp : Int)
  deriving DecidableEq

/-- White space and line terminators, which the conversion strips from both
ends of the string. -/
def isStrWhiteSpaceChar (c : Char) : Bool :=
  [0x9, 0xA, 0xB, 0xC, 0xD, 0x20, 0xA0, 0x1680, 0x2000, 0x2001, 0x2002, 0x2003,
    0x2004, 0x2005, 0x2006, 0x2007, 0x2008, 0x2009, 0x200A, 0x2028, 0x2029,
    0x202F, 0x205F, 0x3000, 0xFEFF].contains c.toNat

/-- Strips white space from both ends. -/
def trimWhiteSpace (cs : List Char) : List Char :=
  ((cs.dropWhile isStrWhiteSpaceChar).reverse.dropWhile isStrWhiteSpaceChar).reverse

/-- The value of a digit in a base up to sixteen, if the character is
one. -/
def digitValue (base : Nat) (c : Char) : Option Nat :=
  let n := c.toNat
  let v :=
    if 48 ≤ n ∧ n ≤ 57 then n - 48          -- '0' to '9'
    else if 97 ≤ n ∧ n ≤ 102 then n - 87    -- 'a' to 'f'
    else if 65 ≤ n ∧ n ≤ 70 then n - 55     -- 'A' to 'F'
    else 16
  if v < base then some v else none

/-- Whether the character is a digit of the base. -/
def isDigitOf (base : Nat) (c : Char) : Bool :=
  (digitValue base c).isSome

/-- The number written by a list of digits of the base, most significant
digit first. -/
def digitsValue (base : Nat) (cs : List Char) : Nat :=
  cs.foldl (fun acc c => acc * base + (digitValue base c).getD 0) 0

/-- A literal `0x…`, `0o…` or `0b…` (either letter case), with at least one
digit and nothing else. -/
def parseNonDecimal (cs : List Char) : Option Nat :=
  match cs with
  | '0' :: p :: ds =>
    let base : Nat :=
      if p = 'x' ∨ p = 'X' then 16
      else if p = 'o' ∨ p = 'O' then 8
      else if p = 'b' ∨ p = 'B' then 2
      else 0
    if base ≠ 0 ∧ ds ≠ [] ∧ ds.all (isDigitOf base) then some (digitsValue base ds)
    else none
  | _ => none

/-- The exponent part after the digits: nothing, or `e`/`E`, an optional
sign and at least one decimal digit. -/
def parseExponent (cs : List Char) : Option Int :=
  match cs with
  | [] => some 0
  | e :: rest =>
    if e = 'e' ∨ e = 'E' then
      let (neg, ds) := match rest with
        | '+' :: t => (false, t)
        | '-' :: t => (true, t)
        | _ => (false, rest)
      if ds ≠ [] ∧ ds.all (isDigitOf 10) then
        some (if neg then -(digitsValue 10 ds : Int) else (digitsValue 10 ds : Int))
      else none
    else none

/-- An unsigned decimal literal: `Infinity`, or digits with an optional
fraction and an optional exponent, at least one digit before or after the
point. -/
def parseUnsignedDecimal (neg : Bool) (cs : List Char) : JSNumber :=
  if cs = "Infinity".data then .inf neg
  else
    let ip := cs.takeWhile (isDigitOf 10)
    let r1 := cs.dropWhile (isDigitOf 10)
    let (fp, r2) := match r1 with
      | '.' :: t => (t.takeWhile (isDigitOf 10), t.dropWhile (isDigitOf 10))
      | _ => ([], r1)
    if ip = [] ∧ fp = [] then .nan
    else match parseExponent r2 with
      | some e => .fin neg (digitsValue 10 (ip ++ fp)) (e - fp.length)
      | none => .nan

/-- The conversion of a string to a number. -/
def toNumber (s : String) : JSNumber :=
  let cs := trimWhiteSpace s.data
  if cs = [] then .fin false 0 0
  else match parseNonDecimal cs with
    | some n => .fin false n 0
    | none =>
      match cs with
      | '+' :: t => parseUnsignedDecimal false t
      | '-' :: t => parseUnsignedDecimal true t
      | _ => parseUnsignedDecimal false cs

/-- The global `isNaN` applied to a string. -/
def isNaN (s : String) : Bool :=
  toNumber s = .nan

/-- Whether `mant * 10 ^ exp` is at most `2 ^ (-1075)`, half the least
positive double, so that the value rounds to zero. -/
def roundsToZero (mant : Nat) (exp : Int) : Bool :=
  if 0 ≤ exp then mant = 0 else mant * 2 ^ 1075 ≤ 10 ^ exp.natAbs

/-- The position of the leading binary digit of `n`, with `fuel` at least
the number of binary digits. -/
def log2Floor : Nat → Nat → Nat
  | 0, _ => 0
  | fuel + 1, n => if n < 2 then 0 else log2Floor fuel (n / 2) + 1

/-- The `n` for which `2 ^ (-n)` is half the gap between `k` and the double
just below it, for `0 < k < 2 ^ 52`. -/
def halfGapBelow (k : Nat) : Nat :=
  if k = 2 ^ log2Floor k k then 54 - log2Floor k k else 53 - log2Floor k k

/-- The test `val >= 0`: the double nearest to the value is zero (of either
sign) or positive. -/
def geZero : JSNumber → Bool
  | .nan => false
  | .inf neg => !neg
  | .fin neg mant exp => !neg || roundsToZero mant exp

/-- The test `val < k` for a natural `k < 2 ^ 52`: the double nearest to the
value is below `k`; a value half a gap below `k` rounds to `k`. -/
def ltNat (x : JSNumber) (k : Nat) : Bool :=
  match x with
  | .nan => false
  | .inf neg => neg
  | .fin neg mant exp =>
    if neg then decide (0 < k) || !roundsToZero mant exp
    else if k = 0 then false
    else if 0 ≤ exp then
      mant * 10 ^ exp.toNat * 2 ^ halfGapBelow k < k * 2 ^ halfGapBelow k - 1
    else
      mant * 2 ^ halfGapBelow k < (k * 2 ^ halfGapBelow k - 1) * 10 ^ exp.natAbs

/-- Decimal digits of `n` in front of `acc`, most significant first. -/
def decimalDigits : Nat → Nat → List Char → List Char
  | 0, _, acc => acc
  | fuel + 1, n, acc =>
    let acc := Char.ofNat (48 + n % 10) :: acc
    if n / 10 = 0 then acc else decimalDigits fuel (n / 10) acc

/-- The decimal string of a natural number, without leading zeros. -/
def natToString (n : Nat) : String :=
  String.mk (decimalDigits (n + 1) n [])

/-- The decimal string of an integer: a minus sign in front of a negative
number. -/
def intToString : Int → String
  | .ofNat n => natToString n
  | .negSucc n => String.mk ('-' :: (natToString (n + 1)).data)

/-- The read `xs[key]` of an array with a string key that converts to a
number: the element at index `i` is the property named by the decimal
string of `i`, and no other property of an array has such a name. -/
def arrayGet (xs : List String) (key : String) : Option String :=
  match (List.range xs.length).find? (fun i => natToString i == key) with
  | some i => xs.get? i
  | none => none

/-! ## Arguments of the command (`src/tools.js` lines 202-224) -/

/-- What a validator returns: `true`, or a message for the user. -/
inductive Validation where
  | valid
  | message (text : String)
  deriving DecidableEq

/-- The message of `validateTeamArg`. -/
def teamArgMessage : String :=
  "Please provide a valid team name, including their city, or `list` to list available team names."

/-- Source `parseTeamArg`. -/
def parseTeamArg (val : String) : Option String :=
  if isNaN val then some val
  else arrayGet teamNames val

/-- Source `validateTeamArg`; `lcVal` stays `undefined` when `val` converts
to a number. -/
def validateTeamArg (val : String) : Validation :=
  let lcVal : Option String :=
    if isNaN val then some (toLowerCase (getTeamShortName val)) else none
  if teamNames.contains val || teamLogosDefined lcVal ||
      toLowerCase val == "list" ||
      (geZero (toNumber val) && ltNat (toNumber val) teamNames.length) then .valid
  else .message teamArgMessage

/-! ## The file-backed store (`src/util/FileDb.js`)

The dataset `scheduleData` is read from a JSON file that is not part of the
sources; it is a parameter of every operation. -/

/-- A `Date`, given by the local calendar date it denotes: the year, the
month from 1 (January) to 12 and the day of the month. -/
structure JSDate where
  year : Nat
  month : Nat
  day : Nat
  deriving DecidableEq

/-- The method `getFullYear`. -/
def JSDate.getFullYear (d : JSDate) : Nat := d.year

/-- The method `getMonth`, which counts the months from 0 (January). -/
def JSDate.getMonth (d : JSDate) : Nat := d.month - 1

/-- The method `getDate`, the day of the month. -/
def JSDate.getDate (d : JSDate) : Nat := d.day

/-- The argument of `getDaySchedule`: a string or a valid `Date`.  (A value
of any other type makes `getMonth` throw; the error is logged and the loop
runs with the value unchanged.) -/
inductive DateArg where
  | str (s : String)
  | date (d : JSDate)
  deriving DecidableEq

/-- The method `padStart` of strings: `c` is repeated in front of `s` up to
the length `n`. -/
def padStart (s : String) (n : Nat) (c : Char) : String :=
  String.mk (List.replicate (n - s.data.length) c ++ s.data)

/-- The string `getDaySchedule` builds from a `Date`. -/
def dateToString (date : JSDate) : String :=
  let month := padStart (natToString date.getMonth) 2 '0'
  let day := padStart (natToString date.getDate) 2 '0'
  String.mk ((natToString date.getFullYear).data ++ '-' :: month.data ++ '-' :: day.data)

/-- The loop of `getDaySchedule`: the first day with the date, or
`undefined`. -/
def findDay (date : String) : List DayInfo → Option DayInfo
  | [] => none
  | day :: rest => if day.date = date then some day else findDay date rest

/-- Source `FileDb.getDaySchedule`. -/
def FileDb.getDaySchedule (scheduleData : List DayInfo) (date : DateArg) : Option DayInfo :=
  let date := match date with
    | .str s => s
    | .date d => dateToString d
  findDay date scheduleData

/-- Source `FileDb.getTeamSchedule`: the two nested loops, pushing onto
`out`. -/
def FileDb.getTeamSchedule (scheduleData : List DayInfo) (teamName : String) : List EventInfo :=
  scheduleData.foldl (fun out day =>
    day.events.foldl (fun out event =>
      if eventIncludesTeam (.plain event) teamName then
        out ++ [{ date := day.date, event := event }]
      else out) out) []

/-- The settled state of a promise. -/
inductive Settled (α : Type) where
  | resolved (value : α)
  | rejected (err : String)
  deriving DecidableEq

/-- The test `a >= b` with a right operand that may be `undefined`, which
compares false. -/
def geArg (a : String) : Option String → Bool
  | some b => strGe a b
  | none => false

/-- The test `a <= b` with a right operand that may be `undefined`. -/
def leArg (a : String) : Option String → Bool
  | some b => strLe a b
  | none => false

/-- Source `FileDb.getScheduledDates`; nothing in the loop throws, so the
promise resolves. -/
def FileDb.getScheduledDates (scheduleData : List DayInfo)
    (startDate endDate : Option String) : Settled (List String) :=
  .resolved (scheduleData.foldl (fun out day =>
    if truthy startDate && !truthy endDate then
      if geArg day.date startDate then out ++ [day.date] else out
    else if !truthy startDate && truthy endDate then
      if leArg day.date endDate then out ++ [day.date] else out
    else if truthy startDate && truthy endDate then
      if geArg day.date startDate && leArg day.date endDate then out ++ [day.date] else out
    else out ++ [day.date]) [])

/-! ## The instruction argument (`src/tools.js` lines 230-269) -/

/-- Source `validInstructionArgs`. -/
def validInstructionArgs : List String :=
  [ "list", "ls",
    "schedule", "sched",
    "reminder", "remind" ]

/-- The message of `validateInstructionArg`. -/
def instructionArgMessage : String :=
  "Please provide a valid instruction. If you're unsure, you can use the `list` option to display the available options (`+owl list`)."

/-- Source `validateInstructionArg`. -/
def validateInstructionArg (val : String) : Validation :=
  if validInstructionArgs.contains (toLowerCase val) then .valid
  else .message instructionArgMessage

/-- Source `parseInstructionArg`: the `switch` on the lower-cased value. -/
def parseInstructionArg (val : String) : Option String :=
  let val := toLowerCase val
  match val with
  | "sched" => some "schedule"
  | "schedule" => some "schedule"
  | "list" => some "list"
  | "ls" => some "list"
  | "remind" => some "reminder"
  | "reminder" => some "reminder"
  | _ => none

/-! ## The tables of `src/util/BaseDB.js` (lines 5-113) -/

/-- The roster of `BaseDB.js`, in the order of the source. -/
def BaseDB.teamNames : List String :=
  [ "Atlanta Reign",
    "Boston Uprising",
    "Chengou Hunters",
    "Dallas Fuel",
    "Florida Mayhem",
    "Guangzhou Charge",
    "Hangzhou Spark",
    "Houston Outlaws",
    "London Spitfire",
    "Los Angeles Gladiators",
    "Los Angeles Valiant",
    "New York Excelsior",
    "Paris Eternal",
    "Philadelphia Fusion",
    "San Francisco Shock",
    "Seoul Dynasty",
    "Shanghai Dragons",
    "Toronto Defiant",
    "Vancouver Titans",
    "Washington Justice" ]

/-- The own properties of the object literal `teamLogos` of `BaseDB.js`.  An
entry keeps the file name of the logo; the directory it is joined to is
`assets/img/logos` here and `assets/images/logos` in `tools.js`. -/
def BaseDB.teamLogos : List (String × Logo) :=
  [ ("reign", ⟨"Atlanta Reign", "Atlanta_Reign.png"⟩),
    ("uprising", ⟨"Boston Uprising", "Boston_Uprising.png"⟩),
    ("hunters", ⟨"Chengdu Hunters", "Chengdu_Hungers.png"⟩),
    ("fuel", ⟨"Dallas Fuel", "Dallas_Fuel.png"⟩),
    ("mayhem", ⟨"Florida Mayhem", "Florida_Mayhem.png"⟩),
    ("charge", ⟨"Guangzhou Charge", "Guangzhou_Charge.png"⟩),
    ("spark", ⟨"Hangzhou Spark", "Hangzhou_Spark.png"⟩),
    ("outlaws", ⟨"Houston Outlaws", "Houston_Outlaws.png"⟩),
    ("spitfire", ⟨"London Spitfire", "London_Spitfire.png"⟩),
    ("gladiators", ⟨"Los Angeles Gladiators", "Los_Angeles_Gladiators.png"⟩),
    ("valiant", ⟨"Los Angeles Valiant", "Los_Angeles_Valiant.png"⟩),
    ("excelsior", ⟨"New York Excelsior", "New_York_Excelsior.png"⟩),
    ("eternal", ⟨"Paris Eternal", "Paris_Eternal.png"⟩),
    ("fusion", ⟨"Philadelphia Fusion", "Philadelphia_Fusion.png"⟩),
    ("shock", ⟨"San Francisco Shock", "San_Francisco_Shock.png"⟩),
    ("dynasty", ⟨"Seoul Dynasty", "Seoul_Dynasty.png"⟩),
    ("dragons", ⟨"Shanghai Dragons", "Shanghai_Dragons.png"⟩),
    ("titans", ⟨"Vancouver Titans", "Vancouver_Titans.png"⟩),
    ("justice", ⟨"Washington Justice", "Washington_Justice.png"⟩) ]

/-! ## The helpers of `src/util/Discord.js`

The module has no `require` and declares only its five constants, so the
names `FileDb`, `getTeamShortName`, `teamNames` and `teamLogos` are bound
nowhere: evaluating one of them throws a `ReferenceError`. -/

/-- How a call ends: with a value, or with an exception. -/
inductive Completion (α : Type) where
  | returned (value : α)
  | threw (err : String)
  deriving DecidableEq

/-- The `ReferenceError` for an identifier without a binding. -/
def referenceError (name : String) : String :=
  String.mk ("ReferenceError: ".data ++ name.data ++ " is not defined".data)

/-- Source `parseTeamArg` of `Discord.js`: the numeric branch evaluates
`new FileDb()`. -/
def Discord.parseTeamArg (val : String) : Completion (Option String) :=
  if isNaN val then .returned (some val)
  else .threw (referenceError "FileDb")

/-- Source `validateTeamArg` of `Discord.js`: the first line calls
`getTeamShortName` when `val` is not numeric, and the condition starts with
`teamNames.includes(val)` otherwise. -/
def Discord.validateTeamArg (val : String) : Completion Validation :=
  if isNaN val then .threw (referenceError "getTeamShortName")
  else .threw (referenceError "teamNames")

/-- Source `validInstructionArgs` of `Discord.js`. -/
def Discord.validInstructionArgs : List String :=
  [ "list", "ls",
    "schedule", "sched",
    "reminder", "remind" ]

/-- Source `validateInstructionArg` of `Discord.js`. -/
def Discord.validateInstructionArg (val : String) : Completion Validation :=
  if Discord.validInstructionArgs.contains (toLowerCase val) then .returned .valid
  else .returned (.message instructionArgMessage)

/-- Source `parseInstructionArg` of `Discord.js`. -/
def Discord.parseInstructionArg (val : String) : Completion (Option String) :=
  let val := toLowerCase val
  match val with
  | "sched" => .returned (some "schedule")
  | "schedule" => .returned (some "schedule")
  | "list" => .returned (some "list")
  | "ls" => .returned (some "list")
  | "remind" => .returned (some "reminder")
  | "reminder" => .returned (some "reminder")
  | _ => .returned none

/-! ## The database-backed store (`src/util/MongoDb.js`)

The collection is a list of day documents in the order in which the store
returns them.  The driver calls the callback with an error, or with the
result of the query: `findOne` gives the first matching document or `null`,
`find` gives the array of the matching documents.  A condition
`'events.away': teamName` matches a document with an event whose `away` is
`teamName`. -/

/-- How a call with a callback ends: the promise is resolved or rejected, or
the callback throws and the promise stays pending. -/
inductive Outcome (α : Type) where
  | resolved (value : α)
  | rejected (err : String)
  | threw (err : String)
  deriving DecidableEq

/-- The query `findOne({ date: date })`. -/
def findOneByDate (collection : List DayInfo) (date : String) : Option DayInfo :=
  collection.find? (fun doc => doc.date == date)

/-- The query `find({ $or: [{ 'events.away': t }, { 'events.home': t }] })`. -/
def findByTeam (collection : List DayInfo) (teamName : String) : List DayInfo :=
  collection.filter (fun doc =>
    doc.events.any (fun event => event.away == teamName) ||
      doc.events.any (fun event => event.home == teamName))

/-- Source `MongoDb.getDaySchedule` with a string: `err` is the error of the
driver, if any.  A document has no property `length`, so `res.length > 0`
compares `undefined` with `0` and is false; reading `length` of `null`
throws a `TypeError`. -/
def MongoDb.getDaySchedule (err : Option String) (collection : List DayInfo)
    (date : String) : Outcome (Option DayInfo) :=
  match err with
  | some e => .rejected e
  | none =>
    match findOneByDate collection date with
    | some _ => .resolved none
    | none => .threw "TypeError: Cannot read property 'length' of null"

/-- Source `MongoDb.getTeamSchedule`: the matching day documents, or
`undefined` when there is none. -/
def MongoDb.getTeamSchedule (err : Option String) (collection : List DayInfo)
    (teamName : String) : Outcome (Option (List DayInfo)) :=
  match err with
  | some e => .rejected e
  | none =>
    let res := findByTeam collection teamName
    if res.length > 0 then .resolved (some res) else .resolved none

/-! ## The flat function of `src/tools.js` (lines 159-175)

`require(scheduleDataPath)` loads the same bundled file as `FileDb.js`; the
dataset is again a parameter. -/

/-- Source `getTeamSchedule` of `tools.js`: an `async` function, so the list
it returns is the value its promise resolves to. -/
def getTeamSchedule (scheduleData : List DayInfo) (teamName : String) :
    Settled (List EventInfo) :=
  .resolved (scheduleData.foldl (fun out day =>
    day.events.foldl (fun out event =>
      if eventIncludesTeam (.plain event) teamName then
        out ++ [{ date := day.date, event := event }]
      else out) out) [])

/-! ## Reference notions used in the statements -/

/-- Every day/event pair of the dataset, days in dataset order and the
events of a day in their order. -/
def allPairs (scheduleData : List DayInfo) : List EventInfo :=
  scheduleData.flatMap (fun day => day.events.map (fun event => { date := day.date, event := event }))

/-- The zero-padded string `YYYY-MM-DD` of a calendar date. -/
def isoDate (year month day : Nat) : String :=
  String.mk ((padStart (natToString year) 4 '0').data ++ '-' ::
    (padStart (natToString month) 2 '0').data ++ '-' :: (padStart (natToString day) 2 '0').data)

/-- A small dataset in the shape of the bundled schedule file. -/
def sampleSchedule : List DayInfo :=
  [ { date := "2019-01-05",
      events := [ { time := "19:00", away := "Houston Outlaws", home := "Paris Eternal" },
                  { time := "21:00", away := "Dallas Fuel", home := "Seoul Dynasty" } ] },
    { date := "2019-01-10",
      events := [ { time := "19:00", away := "Toronto Defiant", home := "Houston Outlaws" } ] },
    { date := "2019-01-24",
      events := [ { time := "20:00", away := "Paris Eternal", home := "Dallas Fuel" } ] } ]

/-- A dataset with one day that has no event. -/
def emptyDaySchedule : List DayInfo :=
  [ { date := "2019-01-10", events := [] } ]

/-- A dataset names its teams by their canonical full names when the away
and the home team of every event are on the roster. -/
def CanonicalNames (scheduleData : List DayInfo) : Prop :=
  ∀ day ∈ scheduleData, ∀ event ∈ day.events,
    event.away ∈ teamNames ∧ event.home ∈ teamNames

instance (scheduleData : List DayInfo) : Decidable (CanonicalNames scheduleData) :=
  inferInstanceAs (Decidable (∀ day ∈ scheduleData, ∀ event ∈ day.events,
    event.away ∈ teamNames ∧ event.home ∈ teamNames))

/-- Two strings that are equal up to letter case. -/
def sameUpToCase (s t : String) : Prop :=
  toLowerCase s = toLowerCase t

instance (s t : String) : Decidable (sameUpToCase s t) :=
  inferInstanceAs (Decidable (toLowerCase s = toLowerCase t))

/-! ## The file-backed store: proofs -/

theorem innerLoop_eq (date teamName : String) (events : List Event) (out : List EventInfo) :
    events.foldl (fun out event =>
        if eventIncludesTeam (.plain event) teamName then
          out ++ [{ date := date, event := event }]
        else out) out
      = out ++ (events.filter (fun event => eventIncludesTeam (.plain event) teamName)).map
          (fun event => { date := date, event := event }) := by
  induction events generalizing out with
  | nil => simp
  | cons e es ih =>
    simp only [List.foldl_cons, ih, List.filter_cons]
    by_cases h : eventIncludesTeam (.plain e) teamName = true <;> simp [h]

theorem outerLoop_eq (teamName : String) (days : List DayInfo) (out : List EventInfo) :
    days.foldl (fun out day =>
        day.events.foldl (fun out event =>
          if eventIncludesTeam (.plain event) teamName then
            out ++ [{ date := day.date, event := event }]
          else out) out) out
      = out ++ (allPairs days).filter (fun p => eventIncludesTeam (.plain p.event) teamName) := by
  induction days generalizing out with
  | nil => simp [allPairs]
  | cons d ds ih =>
    rw [List.foldl_cons, ih, innerLoop_eq]
    simp [allPairs, List.filter_map, Function.comp_def, List.append_assoc]

theorem eventIncludesTeam_info (i : EventInfo) (teamName : String) :
    eventIncludesTeam (.info i) teamName = eventIncludesTeam (.plain i.event) teamName := rfl

/-- C1: `getTeamSchedule` is the list of all day/event pairs, in dataset order, filtered by
`eventIncludesTeam`; every entry returned satisfies `eventIncludesTeam`, the result is a sublist
of the pairs in source order, the matching pairs occur in it as often as in the dataset, and it is
empty when no event includes the team. -/
theorem getTeamSchedule_spec (scheduleData : List DayInfo) (teamName : String) :
    FileDb.getTeamSchedule scheduleData teamName
        = (allPairs scheduleData).filter (fun p => eventIncludesTeam (.plain p.event) teamName)
      ∧ (∀ p ∈ FileDb.getTeamSchedule scheduleData teamName,
          eventIncludesTeam (.plain p.event) teamName = true
            ∧ eventIncludesTeam (.info p) teamName = true)
      ∧ List.Sublist (FileDb.getTeamSchedule scheduleData teamName) (allPairs scheduleData)
      ∧ (∀ p, eventIncludesTeam (.plain p.event) teamName = true →
          (FileDb.getTeamSchedule scheduleData teamName).count p = (allPairs scheduleData).count p)
      ∧ ((∀ day ∈ scheduleData, ∀ event ∈ day.events,
            eventIncludesTeam (.plain event) teamName = false) →
          FileDb.getTeamSchedule scheduleData teamName = []) := by
  have h : FileDb.getTeamSchedule scheduleData teamName
      = (allPairs scheduleData).filter (fun p => eventIncludesTeam (.plain p.event) teamName) := by
    simp [FileDb.getTeamSchedule, outerLoop_eq]
  refine ⟨h, ?_, ?_, ?_, ?_⟩
  · intro p hp
    rw [h, List.mem_filter] at hp
    exact ⟨hp.2, by rw [eventIncludesTeam_info]; exact hp.2⟩
  · rw [h]; exact List.filter_sublist _
  · intro p hp
    rw [h, List.count_filter]
    exact hp
  · intro hnone
    rw [h, List.filter_eq_nil_iff]
    intro p hp
    simp only [allPairs, List.mem_flatMap, List.mem_map] at hp
    obtain ⟨day, hday, event, hev, rfl⟩ := hp
    simp [hnone day hday event hev]


theorem datesLoop_eq (keep : DayInfo → Bool) (days : List DayInfo) (out : List String) :
    days.foldl (fun out day => if keep day then out ++ [day.date] else out) out
      = out ++ (days.filter keep).map (fun day => day.date) := by
  induction days generalizing out with
  | nil => simp
  | cons d ds ih =>
    rw [List.foldl_cons, ih, List.filter_cons]
    by_cases h : keep d = true <;> simp [h]

/-- C2: `getScheduledDates` resolves to the dates of the days, in dataset order, filtered
inclusively: `date >= startDate` with only a start date, `date <= endDate` with only an end date,
both bounds with both, every date with neither; a date string is not empty.  A start date above
every date of the dataset gives the empty list. -/
theorem getScheduledDates_spec (scheduleData : List DayInfo) (startDate endDate : Option String)
    (hend : endDate ≠ some "") :
    FileDb.getScheduledDates scheduleData startDate endDate
        = .resolved (((scheduleData.map (fun day => day.date)).filter (fun date =>
            match startDate, endDate with
            | some s, none => strGe date s
            | none, some e => strLe date e
            | some s, some e => strGe date s && strLe date e
            | none, none => true)))
      ∧ (∀ s, startDate = some s → (∀ day ∈ scheduleData, utf16 day.date < utf16 s) →
          FileDb.getScheduledDates scheduleData startDate endDate = .resolved []) := by
  have key : FileDb.getScheduledDates scheduleData startDate endDate
        = .resolved (((scheduleData.map (fun day => day.date)).filter (fun date =>
            match startDate, endDate with
            | some s, none => strGe date s
            | none, some e => strLe date e
            | some s, some e => strGe date s && strLe date e
            | none, none => true))) := by
    unfold FileDb.getScheduledDates
    congr 1
    rw [List.filter_map]
    rcases startDate with _ | s <;> rcases endDate with _ | e
    · have := datesLoop_eq (fun _ => true) scheduleData []
      simpa [truthy, Function.comp_def] using this
    · have he : e ≠ "" := fun h => hend (by rw [h])
      have := datesLoop_eq (fun day => strLe day.date e) scheduleData []
      simpa [truthy, he, leArg, Function.comp_def] using this
    · by_cases hs : s = ""
      · subst hs
        have := datesLoop_eq (fun _ => true) scheduleData []
        simpa [truthy, Function.comp_def, strGe, strLe, utf16] using this
      · have := datesLoop_eq (fun day => strGe day.date s) scheduleData []
        simpa [truthy, hs, geArg, Function.comp_def] using this
    · have he : e ≠ "" := fun h => hend (by rw [h])
      by_cases hs : s = ""
      · subst hs
        have := datesLoop_eq (fun day => strLe day.date e) scheduleData []
        simpa [truthy, he, leArg, Function.comp_def, strGe, strLe, utf16] using this
      · have := datesLoop_eq (fun day => strGe day.date s && strLe day.date e) scheduleData []
        simpa [truthy, hs, he, geArg, leArg, Function.comp_def] using this
  refine ⟨key, ?_⟩
  intro s hs hall
  rw [key]
  congr 1
  rw [List.filter_eq_nil_iff]
  intro date hdate
  rw [List.mem_map] at hdate
  obtain ⟨day, hday, rfl⟩ := hdate
  have hlt := hall day hday
  have hge : strGe day.date s = false := by
    simp only [strGe, strLe, decide_eq_false_iff_not]
    exact not_le.mpr hlt
  subst hs
  rcases endDate with _ | e <;> simp [hge]


/-- A witness of `getScheduledDates_spec`: the window from the 10th to the 20th of January on the
sample dataset. -/
theorem getScheduledDates_spec_witness :
    (some "2019-01-20" : Option String) ≠ some "" ∧
      FileDb.getScheduledDates sampleSchedule (some "2019-01-10") (some "2019-01-20")
        = .resolved ((sampleSchedule.map (fun day => day.date)).filter
            (fun date => strGe date "2019-01-10" && strLe date "2019-01-20")) :=
  ⟨by decide, (getScheduledDates_spec sampleSchedule (some "2019-01-10") (some "2019-01-20")
    (by decide)).1⟩

theorem findDay_eq_some {date : String} {days : List DayInfo} {d : DayInfo}
    (h : findDay date days = some d) :
    d.date = date ∧ ∃ pre post, days = pre ++ d :: post ∧ ∀ x ∈ pre, x.date ≠ date := by
  induction days with
  | nil => simp [findDay] at h
  | cons x xs ih =>
    unfold findDay at h
    by_cases hx : x.date = date
    · rw [if_pos hx] at h
      cases h
      exact ⟨hx, [], xs, rfl, by simp⟩
    · rw [if_neg hx] at h
      obtain ⟨hd, pre, post, hsplit, hpre⟩ := ih h
      refine ⟨hd, x :: pre, post, by rw [hsplit]; rfl, ?_⟩
      intro y hy
      rcases List.mem_cons.mp hy with rfl | hy
      · exact hx
      · exact hpre y hy

theorem findDay_eq_none {date : String} {days : List DayInfo} :
    findDay date days = none ↔ ∀ day ∈ days, day.date ≠ date := by
  induction days with
  | nil => simp [findDay]
  | cons x xs ih =>
    unfold findDay
    by_cases hx : x.date = date
    · simp [hx]
    · simp [hx, ih]

/-- C3: `getDaySchedule` with a string returns a day exactly when some day of the dataset has that
date; the day returned is the first such day in dataset order and carries the date asked for;
otherwise the result is `undefined`. -/
theorem getDaySchedule_spec (scheduleData : List DayInfo) (date : String) :
    ((FileDb.getDaySchedule scheduleData (.str date)).isSome ↔ ∃ day ∈ scheduleData, day.date = date)
      ∧ (∀ d, FileDb.getDaySchedule scheduleData (.str date) = some d →
          d.date = date ∧
            ∃ pre post, scheduleData = pre ++ d :: post ∧ ∀ x ∈ pre, x.date ≠ date)
      ∧ ((∀ day ∈ scheduleData, day.date ≠ date) →
          FileDb.getDaySchedule scheduleData (.str date) = none) := by
  refine ⟨?_, ?_, ?_⟩
  · constructor
    · intro h
      obtain ⟨d, hd⟩ := Option.isSome_iff_exists.mp h
      obtain ⟨hdate, pre, post, hsplit, -⟩ := findDay_eq_some hd
      exact ⟨d, by rw [hsplit]; simp, hdate⟩
    · rintro ⟨day, hday, hdate⟩
      by_contra hnone
      have hn : findDay date scheduleData = none := by
        simpa [FileDb.getDaySchedule] using hnone
      exact findDay_eq_none.mp hn day hday hdate
  · intro d hd
    exact findDay_eq_some hd
  · intro h
    exact findDay_eq_none.mpr h

/-- C4 (the code at the failing input): for the `Date` of 5 January 2019 the string built is
`2019-00-05`, not the ISO string `2019-01-05`, so the day of the sample dataset that the ISO
string finds is not found; in every month the string built differs from the ISO string. -/
theorem getDaySchedule_date_january :
    dateToString { year := 2019, month := 1, day := 5 } = "2019-00-05"
      ∧ isoDate 2019 1 5 = "2019-01-05"
      ∧ FileDb.getDaySchedule sampleSchedule (.date { year := 2019, month := 1, day := 5 }) = none
      ∧ (FileDb.getDaySchedule sampleSchedule (.str (isoDate 2019 1 5))).isSome = true
      ∧ (∀ month, month < 13 → 1 ≤ month →
          dateToString { year := 2019, month := month, day := 5 } ≠ isoDate 2019 month 5) := by
  decide

/-- C10: `eventIncludesTeam` on an event is true exactly when the team name equals the away name,
the home name, or the short name of either; the comparisons are exact, so a name that differs from
all four, be it only in letter case, gives false. -/
theorem eventIncludesTeam_spec (event : Event) (teamName : String) :
    (eventIncludesTeam (.plain event) teamName = true ↔
        teamName = event.away ∨ teamName = event.home ∨
          teamName = getTeamShortName event.away ∨ teamName = getTeamShortName event.home)
      ∧ (teamName ≠ event.away → teamName ≠ event.home →
          teamName ≠ getTeamShortName event.away → teamName ≠ getTeamShortName event.home →
          eventIncludesTeam (.plain event) teamName = false)
      ∧ eventIncludesTeam
          (.plain { time := "19:00", away := "Houston Outlaws", home := "Paris Eternal" })
          "houston outlaws" = false
      ∧ eventIncludesTeam
          (.plain { time := "19:00", away := "Houston Outlaws", home := "Paris Eternal" })
          "outlaws" = false := by
  have h : eventIncludesTeam (.plain event) teamName = true ↔
        teamName = event.away ∨ teamName = event.home ∨
          teamName = getTeamShortName event.away ∨ teamName = getTeamShortName event.home := by
    simp only [eventIncludesTeam, Bool.or_eq_true, beq_iff_eq, or_assoc]
    constructor <;> intro h <;> rcases h with h | h | h | h <;> simp [h]
  refine ⟨h, ?_, by decide, by decide⟩
  intro h1 h2 h3 h4
  rw [← Bool.not_eq_true]
  intro ht
  rcases h.mp ht with h' | h' | h' | h'
  · exact h1 h'
  · exact h2 h'
  · exact h3 h'
  · exact h4 h'


/-! ## The arguments of the command: proofs -/

theorem contains_eq_true_iff (xs : List String) (a : String) :
    xs.contains a = true ↔ a ∈ xs := by
  simp

/-- What `validateTeamArg` computes, read off the source: the four tests, the second one made on
own and inherited properties and only for an argument that does not convert to a number. -/
theorem validateTeamArg_valid_iff (val : String) :
    validateTeamArg val = .valid ↔
      val ∈ teamNames
        ∨ (isNaN val = true ∧
            (toLowerCase (getTeamShortName val) ∈ teamLogoKeys
              ∨ toLowerCase (getTeamShortName val) ∈ objectPrototypeProps))
        ∨ toLowerCase val = "list"
        ∨ (geZero (toNumber val) = true ∧ ltNat (toNumber val) teamNames.length = true) := by
  have hundef : teamLogosDefined none = false := by decide
  have hiff : ∀ c : Bool,
      (if c = true then Validation.valid else Validation.message teamArgMessage) = .valid
        ↔ c = true := by
    intro c; cases c <;> simp
  unfold validateTeamArg
  rw [hiff]
  cases hn : isNaN val
  · simp only [Bool.false_eq_true, if_false, hundef, Bool.or_false, Bool.or_eq_true,
      Bool.and_eq_true, contains_eq_true_iff, beq_iff_eq, false_and, false_or]
    tauto
  · simp only [if_true, teamLogosDefined, Option.getD_some, Bool.or_eq_true,
      Bool.and_eq_true, contains_eq_true_iff, beq_iff_eq, true_and]
    tauto

/-- Apart from `true`, `validateTeamArg` returns the one fixed message. -/
theorem validateTeamArg_ne_valid (val : String) (h : validateTeamArg val ≠ .valid) :
    validateTeamArg val = .message teamArgMessage := by
  by_cases hc : (teamNames.contains val
      || teamLogosDefined (if isNaN val then some (toLowerCase (getTeamShortName val)) else none)
      || toLowerCase val == "list"
      || (geZero (toNumber val) && ltNat (toNumber val) teamNames.length)) = true
  · exact absurd (by simp only [validateTeamArg, hc, if_true]) h
  · simp only [validateTeamArg, hc]
    rfl

/-- C5 (the code at the failing input): `validateTeamArg("constructor")` returns `true`, although
the argument is no team name, its lower-cased short name is no key of `teamLogos`, it is not
`list` and it does not convert to a number; the property `constructor` that every object inherits
is read by `teamLogos[lcVal]`. -/
theorem validateTeamArg_constructor :
    validateTeamArg "constructor" = .valid
      ∧ "constructor" ∉ teamNames
      ∧ toLowerCase (getTeamShortName "constructor") ∉ teamLogoKeys
      ∧ toLowerCase "constructor" ≠ "list"
      ∧ isNaN "constructor" = true
      ∧ teamLogoEntry (toLowerCase (getTeamShortName "constructor")) = none := by
  decide

/-- C6 (the code at the failing input): `Toronto Defiant` is on the roster and `Defiant` is its
short name, yet `validateTeamArg("Defiant")` returns the message, `teamLogos` having no key
`defiant`. -/
theorem validateTeamArg_defiant :
    "Toronto Defiant" ∈ teamNames
      ∧ getTeamShortName "Toronto Defiant" = "Defiant"
      ∧ sameUpToCase "defiant" (getTeamShortName "Toronto Defiant")
      ∧ validateTeamArg "Toronto Defiant" = .valid
      ∧ validateTeamArg "Defiant" = .message teamArgMessage
      ∧ validateTeamArg "defiant" = .message teamArgMessage
      ∧ validateTeamArg "LiSt" = .valid := by
  decide

/-- C9 (the code at the failing inputs): the roster team `Toronto Defiant` has no entry in
`teamLogos`, and the entry under `hunters` is named `Chengdu Hunters` while the roster has
`Chengou Hunters`; the other eighteen roster teams map back to their entry. -/
theorem teamLogos_roster_mismatch :
    "Toronto Defiant" ∈ teamNames
      ∧ toLowerCase (getTeamShortName "Toronto Defiant") = "defiant"
      ∧ "defiant" ∉ teamLogoKeys
      ∧ teamLogoEntry "defiant" = none
      ∧ "Chengou Hunters" ∈ teamNames
      ∧ (teamLogoEntry (toLowerCase (getTeamShortName "Chengou Hunters"))).map Logo.name
          = some "Chengdu Hunters"
      ∧ (∀ team ∈ teamNames, team ≠ "Toronto Defiant" → team ≠ "Chengou Hunters" →
          (teamLogoEntry (toLowerCase (getTeamShortName team))).map Logo.name = some team) := by
  decide


/-! ## Decimal strings and their conversion back to numbers -/

theorem isDigitOf_ten_iff (c : Char) : isDigitOf 10 c = true ↔ 48 ≤ c.toNat ∧ c.toNat ≤ 57 := by
  unfold isDigitOf digitValue
  simp only []
  split_ifs <;> simp <;> omega

theorem digitValue_ten_of_digit {c : Char} (h : isDigitOf 10 c = true) :
    digitValue 10 c = some (c.toNat - 48) := by
  have hc := (isDigitOf_ten_iff c).mp h
  unfold digitValue
  simp only []
  rw [if_pos hc, if_pos (by omega)]

theorem ofNat_digit_toNat : ∀ k, k < 10 → (Char.ofNat (48 + k)).toNat = 48 + k := by
  decide

theorem digitsValue_append_single (base : Nat) (cs : List Char) (c : Char) :
    digitsValue base (cs ++ [c]) = digitsValue base cs * base + (digitValue base c).getD 0 := by
  simp [digitsValue, List.foldl_append]

theorem digitsValue_foldl (base : Nat) (cs : List Char) (init : Nat) :
    cs.foldl (fun acc c => acc * base + (digitValue base c).getD 0) init
      = init * base ^ cs.length + digitsValue base cs := by
  induction cs generalizing init with
  | nil => simp [digitsValue]
  | cons c cs ih =>
    simp only [digitsValue, List.foldl_cons, List.length_cons]
    rw [ih, ih (0 * base + _)]
    ring

theorem digitsValue_cons (base : Nat) (c : Char) (cs : List Char) :
    digitsValue base (c :: cs)
      = (digitValue base c).getD 0 * base ^ cs.length + digitsValue base cs := by
  have := digitsValue_foldl base cs (0 * base + (digitValue base c).getD 0)
  simpa [digitsValue] using this

/-- When the fuel exceeds `n`, the output of `decimalDigits` is the accumulator with a run of
decimal digits in front; the run is not empty and reads back as `n`. -/
theorem decimalDigits_spec (fuel n : Nat) (acc : List Char) (hfuel : n < fuel) :
    ∃ run, run ≠ [] ∧ digitsValue 10 run = n ∧ (∀ c ∈ run, isDigitOf 10 c = true)
      ∧ decimalDigits fuel n acc = run ++ acc := by
  induction fuel generalizing n acc with
  | zero => omega
  | succ fuel ih =>
    have hd : (Char.ofNat (48 + n % 10)).toNat = 48 + n % 10 :=
      ofNat_digit_toNat (n % 10) (Nat.mod_lt n (by norm_num))
    have hdig : isDigitOf 10 (Char.ofNat (48 + n % 10)) = true := by
      rw [isDigitOf_ten_iff, hd]; omega
    have hval : digitValue 10 (Char.ofNat (48 + n % 10)) = some (n % 10) := by
      rw [digitValue_ten_of_digit hdig, hd]; simp
    unfold decimalDigits
    simp only []
    by_cases hz : n / 10 = 0
    · rw [if_pos hz]
      refine ⟨[Char.ofNat (48 + n % 10)], by simp, ?_, ?_, rfl⟩
      · rw [digitsValue_cons, hval]
        simp [digitsValue]
        omega
      · intro c hc
        rw [List.mem_singleton] at hc
        rw [hc]; exact hdig
    · rw [if_neg hz]
      obtain ⟨run, hne, hv, hall, hrun⟩ :=
        ih (n / 10) (Char.ofNat (48 + n % 10) :: acc) (by omega)
      refine ⟨run ++ [Char.ofNat (48 + n % 10)], by simp, ?_, ?_, ?_⟩
      · rw [digitsValue_append_single, hv, hval]
        simp
        omega
      · intro c hc
        rcases List.mem_append.mp hc with hc | hc
        · exact hall c hc
        · rw [List.mem_singleton] at hc
          rw [hc]; exact hdig
      · rw [hrun]; simp

/-- The decimal string of `n` is a non-empty run of decimal digits that reads back as `n`. -/
theorem natToString_spec (n : Nat) :
    ∃ ds : List Char, natToString n = String.mk ds ∧ ds ≠ [] ∧
      (∀ c ∈ ds, isDigitOf 10 c = true) ∧ digitsValue 10 ds = n := by
  obtain ⟨run, hne, hv, hall, hrun⟩ := decimalDigits_spec (n + 1) n [] (by omega)
  exact ⟨run, by simp [natToString, hrun], hne, hall, hv⟩

theorem not_whiteSpace_of_digit {c : Char} (h : isDigitOf 10 c = true) :
    isStrWhiteSpaceChar c = false := by
  have hc := (isDigitOf_ten_iff c).mp h
  unfold isStrWhiteSpaceChar
  rw [← Bool.not_eq_true]
  intro hmem
  have hm : c.toNat ∈ [0x9, 0xA, 0xB, 0xC, 0xD, 0x20, 0xA0, 0x1680, 0x2000, 0x2001, 0x2002,
      0x2003, 0x2004, 0x2005, 0x2006, 0x2007, 0x2008, 0x2009, 0x200A, 0x2028, 0x2029,
      0x202F, 0x205F, 0x3000, 0xFEFF] := by simpa using hmem
  simp only [List.mem_cons, List.mem_singleton, List.not_mem_nil, or_false] at hm
  omega

theorem trimWhiteSpace_eq_self {cs : List Char}
    (hhead : ∀ c ∈ cs.head?, isStrWhiteSpaceChar c = false)
    (hlast : ∀ c ∈ cs.getLast?, isStrWhiteSpaceChar c = false) :
    trimWhiteSpace cs = cs := by
  have hdrop : ∀ l : List Char, (∀ c ∈ l.head?, isStrWhiteSpaceChar c = false) →
      l.dropWhile isStrWhiteSpaceChar = l := by
    intro l hl
    cases l with
    | nil => rfl
    | cons x xs =>
      have hx : isStrWhiteSpaceChar x = false := hl x (by simp)
      simp [List.dropWhile, hx]
  unfold trimWhiteSpace
  rw [hdrop cs hhead, hdrop cs.reverse (by simpa using hlast), List.reverse_reverse]

theorem parseNonDecimal_digits {cs : List Char} (h : ∀ c ∈ cs, isDigitOf 10 c = true) :
    parseNonDecimal cs = none := by
  unfold parseNonDecimal
  split
  · rename_i p ds
    have hp := (isDigitOf_ten_iff p).mp (h p (by simp))
    have h1 : p ≠ 'x' := by rintro rfl; revert hp; decide
    have h2 : p ≠ 'X' := by rintro rfl; revert hp; decide
    have h3 : p ≠ 'o' := by rintro rfl; revert hp; decide
    have h4 : p ≠ 'O' := by rintro rfl; revert hp; decide
    have h5 : p ≠ 'b' := by rintro rfl; revert hp; decide
    have h6 : p ≠ 'B' := by rintro rfl; revert hp; decide
    simp [h1, h2, h3, h4, h5, h6]
  · rfl

theorem takeWhile_digits {cs : List Char} (h : ∀ c ∈ cs, isDigitOf 10 c = true) :
    cs.takeWhile (isDigitOf 10) = cs ∧ cs.dropWhile (isDigitOf 10) = [] := by
  induction cs with
  | nil => simp
  | cons x xs ih =>
    have hx := h x (by simp)
    have := ih (fun c hc => h c (by simp [hc]))
    simp [List.takeWhile, List.dropWhile, hx, this]

theorem parseUnsignedDecimal_digits (neg : Bool) {cs : List Char} (hne : cs ≠ [])
    (h : ∀ c ∈ cs, isDigitOf 10 c = true) :
    parseUnsignedDecimal neg cs = .fin neg (digitsValue 10 cs) 0 := by
  have hinf : cs ≠ "Infinity".data := by
    intro heq
    have := h 'I' (by rw [heq]; decide)
    revert this; decide
  obtain ⟨ht, hd⟩ := takeWhile_digits h
  unfold parseUnsignedDecimal
  rw [if_neg hinf]
  simp only [ht, hd, parseExponent]
  simp [hne]

/-- A non-empty run of decimal digits converts to the number it writes. -/
theorem toNumber_digits {cs : List Char} (hne : cs ≠ [])
    (h : ∀ c ∈ cs, isDigitOf 10 c = true) :
    toNumber (String.mk cs) = .fin false (digitsValue 10 cs) 0 := by
  have htrim : trimWhiteSpace cs = cs :=
    trimWhiteSpace_eq_self
      (fun c hc => not_whiteSpace_of_digit (h c (List.mem_of_mem_head? hc)))
      (fun c hc => not_whiteSpace_of_digit (h c (List.mem_of_mem_getLast? hc)))
  unfold toNumber
  simp only [htrim, if_neg hne, parseNonDecimal_digits h]
  split
  · rename_i t
    exact absurd (h '+' (by simp)) (by decide)
  · rename_i t
    exact absurd (h '-' (by simp)) (by decide)
  · exact parseUnsignedDecimal_digits false hne h

/-- A minus sign and a non-empty run of decimal digits convert to the negated number. -/
theorem toNumber_minus_digits {cs : List Char} (hne : cs ≠ [])
    (h : ∀ c ∈ cs, isDigitOf 10 c = true) :
    toNumber (String.mk ('-' :: cs)) = .fin true (digitsValue 10 cs) 0 := by
  have hlast : ∀ c ∈ ('-' :: cs).getLast?, isStrWhiteSpaceChar c = false := by
    intro c hc
    obtain ⟨x, xs, rfl⟩ := List.exists_cons_of_ne_nil hne
    rw [List.getLast?_cons_cons] at hc
    exact not_whiteSpace_of_digit (h c (List.mem_of_mem_getLast? hc))
  have htrim : trimWhiteSpace ('-' :: cs) = '-' :: cs :=
    trimWhiteSpace_eq_self (by intro c hc; simp at hc; subst hc; decide) hlast
  unfold toNumber
  simp only [htrim]
  rw [if_neg (by simp)]
  have hnd : parseNonDecimal ('-' :: cs) = none := by
    unfold parseNonDecimal
    split
    · rename_i heq; simp at heq
    · rfl
  simp only [hnd]
  exact parseUnsignedDecimal_digits true hne h

theorem toNumber_natToString (n : Nat) : toNumber (natToString n) = .fin false n 0 := by
  obtain ⟨ds, hds, hne, hall, hv⟩ := natToString_spec n
  rw [hds, toNumber_digits hne hall, hv]

theorem toNumber_intToString_negSucc (n : Nat) :
    toNumber (intToString (Int.negSucc n)) = .fin true (n + 1) 0 := by
  obtain ⟨ds, hds, hne, hall, hv⟩ := natToString_spec (n + 1)
  show toNumber (String.mk ('-' :: (natToString (n + 1)).data)) = _
  rw [hds, toNumber_minus_digits hne hall, hv]


theorem toLower_of_lt {c : Char} (h : c.toNat < 65) : c.toLower = c := by
  unfold Char.toLower
  simp only []
  rw [if_neg (by omega)]

theorem toLowerCase_of_lt {cs : List Char} (h : ∀ c ∈ cs, c.toNat < 65) :
    toLowerCase (String.mk cs) = String.mk cs := by
  unfold toLowerCase
  congr 1
  show cs.map Char.toLower = cs
  conv_rhs => rw [← List.map_id cs]
  exact List.map_congr_left (fun c hc => toLower_of_lt (h c hc))

theorem teamNames_isNaN : ∀ team ∈ teamNames, isNaN team = true := by
  decide

theorem isNaN_eq_false_of_fin {val : String} {neg : Bool} {mant : Nat} {exp : Int}
    (h : toNumber val = .fin neg mant exp) : isNaN val = false := by
  simp [isNaN, h]

theorem length_teamNames : teamNames.length = 20 := rfl

theorem halfGapBelow_twenty : halfGapBelow 20 = 49 := by decide

theorem ltNat_fin_nat (k : Nat) :
    ltNat (.fin false k 0) teamNames.length = true ↔ k < 20 := by
  simp only [ltNat, length_teamNames, halfGapBelow_twenty]
  norm_num
  omega

theorem natToString_not_list (k : Nat) : toLowerCase (natToString k) ≠ "list" := by
  obtain ⟨ds, hds, hne, hall, -⟩ := natToString_spec k
  rw [hds, toLowerCase_of_lt (fun c hc => by have := (isDigitOf_ten_iff c).mp (hall c hc); omega)]
  intro heq
  have hdata : ds = "list".data := congrArg String.data heq
  exact absurd (hall 'l' (by rw [hdata]; decide)) (by decide)

theorem negSucc_not_list (k : Nat) : toLowerCase (intToString (Int.negSucc k)) ≠ "list" := by
  obtain ⟨ds, hds, hne, hall, -⟩ := natToString_spec (k + 1)
  show toLowerCase (String.mk ('-' :: (natToString (k + 1)).data)) ≠ "list"
  rw [hds, toLowerCase_of_lt (fun c hc => by
    rcases List.mem_cons.mp hc with rfl | hc
    · decide
    · have := (isDigitOf_ten_iff c).mp (hall c hc); omega)]
  intro heq
  have hdata : '-' :: ds = "list".data := congrArg String.data heq
  have hhead : ('-' :: ds).head? = "list".data.head? := by rw [hdata]
  have hminus : some '-' = "list".data.head? := hhead
  exact absurd hminus (by decide)

theorem validateTeamArg_natToString (k : Nat) :
    validateTeamArg (natToString k) = .valid ↔ k < 20 := by
  have hnum := toNumber_natToString k
  have hnan := isNaN_eq_false_of_fin hnum
  rw [validateTeamArg_valid_iff, hnum, ltNat_fin_nat]
  constructor
  · rintro (h | h | h | h)
    · rw [teamNames_isNaN _ h] at hnan; cases hnan
    · rw [h.1] at hnan; cases hnan
    · exact absurd h (natToString_not_list k)
    · exact h.2
  · intro h
    exact Or.inr (Or.inr (Or.inr ⟨rfl, h⟩))

theorem validateTeamArg_negSucc (k : Nat) :
    validateTeamArg (intToString (Int.negSucc k)) ≠ .valid := by
  have hnum := toNumber_intToString_negSucc k
  have hnan := isNaN_eq_false_of_fin hnum
  rw [Ne, validateTeamArg_valid_iff, hnum]
  rintro (h | h | h | h)
  · rw [teamNames_isNaN _ h] at hnan; cases hnan
  · rw [h.1] at hnan; cases hnan
  · exact absurd h (negSucc_not_list k)
  · have := h.1
    simp [geZero, roundsToZero] at this

/-- C7: for every integer `n`, passed as its decimal string, `validateTeamArg` returns `true`
exactly when `0 <= n < 20`, and the message otherwise; so it returns the message for `-1` and for
`20`, and also for `Nonexistent Team`. -/
theorem validateTeamArg_integer :
    (∀ n : Int, validateTeamArg (intToString n) = .valid ↔ 0 ≤ n ∧ n < 20)
      ∧ (∀ n : Int, ¬ (0 ≤ n ∧ n < 20) →
          validateTeamArg (intToString n) = .message teamArgMessage)
      ∧ (∀ k : Nat, k < 20 → validateTeamArg (natToString k) = .valid)
      ∧ intToString (-1) = "-1" ∧ validateTeamArg "-1" = .message teamArgMessage
      ∧ intToString 20 = "20" ∧ validateTeamArg "20" = .message teamArgMessage
      ∧ validateTeamArg "Nonexistent Team" = .message teamArgMessage := by
  have hiff : ∀ n : Int, validateTeamArg (intToString n) = .valid ↔ 0 ≤ n ∧ n < 20 := by
    intro n
    cases n with
    | ofNat k =>
      show validateTeamArg (natToString k) = .valid ↔ _
      rw [validateTeamArg_natToString]
      constructor
      · intro h
        exact ⟨Int.ofNat_nonneg k, by
          show (k : Int) < 20
          exact_mod_cast h⟩
      · intro h
        have h2 : (k : Int) < 20 := h.2
        exact_mod_cast h2
    | negSucc k =>
      constructor
      · intro h; exact absurd h (validateTeamArg_negSucc k)
      · intro h; exact absurd h.1 (by simp [Int.negSucc_lt_zero])
  refine ⟨hiff, ?_, ?_, by decide, by decide, by decide, by decide, by decide⟩
  · intro n hn
    exact validateTeamArg_ne_valid _ (fun h => hn ((hiff n).mp h))
  · intro k hk
    exact (validateTeamArg_natToString k).mpr hk


theorem natToString_injective {i j : Nat} (h : natToString i = natToString j) : i = j := by
  have hi := toNumber_natToString i
  rw [h, toNumber_natToString j] at hi
  injection hi with _ hm _
  exact hm.symm

/-- An array has an element under a key exactly when the key is the decimal string of an index
below the length. -/
theorem arrayGet_eq_some_iff (xs : List String) (key t : String) :
    arrayGet xs key = some t ↔
      ∃ i, i < xs.length ∧ key = natToString i ∧ xs.get? i = some t := by
  unfold arrayGet
  constructor
  · intro h
    split at h
    · rename_i i hfind
      have hp := List.find?_some hfind
      have hmem := List.mem_of_find?_eq_some hfind
      rw [List.mem_range] at hmem
      exact ⟨i, hmem, (beq_iff_eq.mp hp).symm, h⟩
    · cases h
  · rintro ⟨i, hi, rfl, hget⟩
    split
    · rename_i j hfind
      have hp := List.find?_some hfind
      rw [natToString_injective (beq_iff_eq.mp hp)]
      exact hget
    · rename_i hfind
      rw [List.find?_eq_none] at hfind
      exact absurd (hfind i (List.mem_range.mpr hi)) (by simp)

theorem arrayGet_intToString_none (n : Int) (hn : ¬ (0 ≤ n ∧ n < 20)) :
    arrayGet teamNames (intToString n) = none := by
  rw [Option.eq_none_iff_forall_not_mem]
  intro t ht
  obtain ⟨i, hi, hkey, -⟩ := (arrayGet_eq_some_iff teamNames (intToString n) t).mp ht
  rw [length_teamNames] at hi
  have hnum := toNumber_natToString i
  rw [← hkey] at hnum
  cases n with
  | ofNat k =>
    have hk : toNumber (natToString k) = .fin false i 0 := hnum
    rw [toNumber_natToString k] at hk
    injection hk with _ hm _
    apply hn
    refine ⟨Int.ofNat_nonneg k, ?_⟩
    show (k : Int) < 20
    rw [hm]
    exact_mod_cast hi
  | negSucc k =>
    rw [toNumber_intToString_negSucc k] at hnum
    injection hnum with hneg _ _
    cases hneg

theorem isNaN_intToString (n : Int) : isNaN (intToString n) = false := by
  cases n with
  | ofNat k => exact isNaN_eq_false_of_fin (toNumber_natToString k)
  | negSucc k => exact isNaN_eq_false_of_fin (toNumber_intToString_negSucc k)

/-- What `parseTeamArg` computes: it returns an argument that does not convert to a number
unchanged, and for one that does it returns `teamNames[val]`, the name at the index whose decimal
string is `val`: for every integer `i` with `0 <= i < 20`, written as its decimal string, the
result is the name at index `i` (for `0` it is `Atlanta Reign`), and for every integer outside
that range it is `undefined`. -/
theorem parseTeamArg_spec :
    (∀ val, isNaN val = true → parseTeamArg val = some val)
      ∧ (∀ val, isNaN val = false → parseTeamArg val = arrayGet teamNames val)
      ∧ (∀ val t, isNaN val = false →
          (parseTeamArg val = some t ↔
            ∃ i, i < 20 ∧ val = natToString i ∧ teamNames.get? i = some t))
      ∧ (∀ i, i < 20 →
          parseTeamArg (intToString (Int.ofNat i)) = teamNames.get? i
            ∧ (parseTeamArg (intToString (Int.ofNat i))).isSome = true)
      ∧ intToString 0 = "0" ∧ parseTeamArg "0" = some "Atlanta Reign"
      ∧ (∀ n : Int, ¬ (0 ≤ n ∧ n < 20) → parseTeamArg (intToString n) = none) := by
  refine ⟨?_, ?_, ?_, by decide, by decide, by decide, ?_⟩
  · intro val h
    simp [parseTeamArg, h]
  · intro val h
    simp [parseTeamArg, h]
  · intro val t h
    have hp : parseTeamArg val = arrayGet teamNames val := by simp [parseTeamArg, h]
    rw [hp, arrayGet_eq_some_iff, length_teamNames]
  · intro n hn
    have hp : parseTeamArg (intToString n) = arrayGet teamNames (intToString n) := by
      simp [parseTeamArg, isNaN_intToString n]
    rw [hp]
    exact arrayGet_intToString_none n hn

/-- C8 (the code at the failing inputs): the arguments `01`, ` 0` and `+19` convert to the numbers
1, 0 and 19, and the roster has a team at each of these indices, but `parseTeamArg` reads the
property of that very name and returns `undefined`; only the plain decimal string, as `1`, reads
the team. -/
theorem parseTeamArg_noncanonical_undefined :
    isNaN "01" = false ∧ toNumber "01" = .fin false 1 0
      ∧ teamNames.get? 1 = some "Boston Uprising" ∧ parseTeamArg "01" = none
      ∧ isNaN " 0" = false ∧ toNumber " 0" = .fin false 0 0
      ∧ teamNames.get? 0 = some "Atlanta Reign" ∧ parseTeamArg " 0" = none
      ∧ isNaN "+19" = false ∧ toNumber "+19" = .fin false 19 0
      ∧ teamNames.get? 19 = some "Washington Justice" ∧ parseTeamArg "+19" = none
      ∧ parseTeamArg "1" = some "Boston Uprising"
      ∧ parseTeamArg "Houston Outlaws" = some "Houston Outlaws" := by
  decide

/-! ## The instruction argument: proofs -/

/-- The `switch` of `parseInstructionArg`, as a function of the lower-cased value. -/
theorem parseInstructionArg_cases (val : String) :
    (parseInstructionArg val = some "schedule"
        ∧ (toLowerCase val = "sched" ∨ toLowerCase val = "schedule"))
      ∨ (parseInstructionArg val = some "list"
        ∧ (toLowerCase val = "list" ∨ toLowerCase val = "ls"))
      ∨ (parseInstructionArg val = some "reminder"
        ∧ (toLowerCase val = "remind" ∨ toLowerCase val = "reminder"))
      ∨ (parseInstructionArg val = none ∧ toLowerCase val ∉ validInstructionArgs) := by
  unfold parseInstructionArg
  simp only []
  split
  · rename_i h; exact Or.inl ⟨rfl, Or.inl h⟩
  · rename_i h; exact Or.inl ⟨rfl, Or.inr h⟩
  · rename_i h; exact Or.inr (Or.inl ⟨rfl, Or.inl h⟩)
  · rename_i h; exact Or.inr (Or.inl ⟨rfl, Or.inr h⟩)
  · rename_i h; exact Or.inr (Or.inr (Or.inl ⟨rfl, Or.inl h⟩))
  · rename_i h; exact Or.inr (Or.inr (Or.inl ⟨rfl, Or.inr h⟩))
  · rename_i h1 h2 h3 h4 h5 h6
    refine Or.inr (Or.inr (Or.inr ⟨rfl, ?_⟩))
    simp only [validInstructionArgs, List.mem_cons, List.mem_singleton, List.not_mem_nil,
      or_false]
    tauto


/-- C11: `parseInstructionArg` returns `schedule` exactly when the lower-cased argument is `sched`
or `schedule`, `list` exactly for `list` or `ls`, `reminder` exactly for `remind` or `reminder`,
and `undefined` for every other argument; two arguments that differ in letter case only give the
same result. -/
theorem parseInstructionArg_spec (val : String) :
    (parseInstructionArg val = some "schedule" ↔
        toLowerCase val = "sched" ∨ toLowerCase val = "schedule")
      ∧ (parseInstructionArg val = some "list" ↔
        toLowerCase val = "list" ∨ toLowerCase val = "ls")
      ∧ (parseInstructionArg val = some "reminder" ↔
        toLowerCase val = "remind" ∨ toLowerCase val = "reminder")
      ∧ (parseInstructionArg val = none ↔
        ¬ (toLowerCase val = "sched" ∨ toLowerCase val = "schedule"
          ∨ toLowerCase val = "list" ∨ toLowerCase val = "ls"
          ∨ toLowerCase val = "remind" ∨ toLowerCase val = "reminder"))
      ∧ (∀ other, sameUpToCase val other →
          parseInstructionArg other = parseInstructionArg val) := by
  have hcase : ∀ other, sameUpToCase val other →
      parseInstructionArg other = parseInstructionArg val := by
    intro other h
    unfold sameUpToCase at h
    simp only [parseInstructionArg, h]
  refine ⟨?_, ?_, ?_, ?_, hcase⟩ <;>
    rcases parseInstructionArg_cases val with ⟨hp, h | h⟩ | ⟨hp, h | h⟩ | ⟨hp, h | h⟩ | ⟨hp, h⟩ <;>
    first
      | (rw [hp, h]; decide)
      | (rw [hp]
         simp only [validInstructionArgs, List.mem_cons, List.mem_singleton, List.not_mem_nil,
           or_false] at h
         constructor
         · intro h'; first | (intro h''; apply h; tauto) | cases h'
         · intro h'; first | rfl | (exfalso; apply h; tauto))

/-- C12: `validateInstructionArg` returns `true` exactly when the lower-cased argument is one of
`list`, `ls`, `schedule`, `sched`, `reminder`, `remind`, and the one fixed message for every other
string. -/
theorem validateInstructionArg_spec (val : String) :
    (validateInstructionArg val = .valid ↔
        toLowerCase val = "list" ∨ toLowerCase val = "ls"
          ∨ toLowerCase val = "schedule" ∨ toLowerCase val = "sched"
          ∨ toLowerCase val = "reminder" ∨ toLowerCase val = "remind")
      ∧ (validateInstructionArg val ≠ .valid →
          validateInstructionArg val = .message instructionArgMessage)
      ∧ (validateInstructionArg val = .valid
          ∨ validateInstructionArg val = .message instructionArgMessage) := by
  unfold validateInstructionArg
  by_cases h : validInstructionArgs.contains (toLowerCase val) = true
  · rw [if_pos h]
    rw [contains_eq_true_iff] at h
    simp only [validInstructionArgs, List.mem_cons, List.mem_singleton, List.not_mem_nil,
      or_false] at h
    exact ⟨⟨fun _ => h, fun _ => rfl⟩, fun hne => absurd rfl hne, Or.inl rfl⟩
  · rw [if_neg h]
    rw [contains_eq_true_iff] at h
    simp only [validInstructionArgs, List.mem_cons, List.mem_singleton, List.not_mem_nil,
      or_false] at h
    exact ⟨⟨fun hv => (by cases hv), fun hm => absurd hm h⟩, fun _ => rfl, Or.inr rfl⟩


/-! ## Dates without arguments, and the other store -/

theorem getScheduledDates_noArgs (scheduleData : List DayInfo) :
    FileDb.getScheduledDates scheduleData none none
      = .resolved (scheduleData.map (fun day => day.date)) := by
  have := datesLoop_eq (fun _ => true) scheduleData []
  unfold FileDb.getScheduledDates
  congr 1
  simpa [truthy] using this

/-- C13 (the code at the failing input): over the dataset with the single day `2019-01-10` without
events, which has one day per date, `getScheduledDates()` resolves to `["2019-01-10"]`, although
no day with that date has an event; the result is not the list of the dates that have an event
scheduled. -/
theorem getScheduledDates_empty_day :
    (emptyDaySchedule.map (fun day => day.date)).Nodup
      ∧ FileDb.getScheduledDates emptyDaySchedule none none = .resolved ["2019-01-10"]
      ∧ ¬ (∃ day ∈ emptyDaySchedule, day.date = "2019-01-10" ∧ day.events ≠ [])
      ∧ ¬ (∀ scheduleData : List DayInfo, (scheduleData.map (fun day => day.date)).Nodup →
            ∃ out, FileDb.getScheduledDates scheduleData none none = .resolved out
              ∧ out.Nodup
              ∧ ∀ date, date ∈ out ↔
                  ∃ day ∈ scheduleData, day.date = date ∧ day.events ≠ []) := by
  refine ⟨by decide, by decide, by decide, ?_⟩
  intro hclaim
  obtain ⟨out, hout, -, hmem⟩ := hclaim emptyDaySchedule (by decide)
  have hval : out = ["2019-01-10"] := by
    have h2 : FileDb.getScheduledDates emptyDaySchedule none none = .resolved ["2019-01-10"] := by
      decide
    rw [h2] at hout
    injection hout with h
    exact h.symm
  have hin : "2019-01-10" ∈ out := by rw [hval]; simp
  obtain ⟨day, hday, -, hev⟩ := (hmem "2019-01-10").mp hin
  simp only [emptyDaySchedule, List.mem_singleton] at hday
  subst hday
  exact hev rfl

/-- What the loop computes without arguments: over a dataset with at most one day per date,
`getScheduledDates()` resolves to a list without repetition that contains exactly the dates of the
days of the dataset, in dataset order, whether or not a day has events; when every day has an
event these are the dates of the days with an event. -/
theorem getScheduledDates_all_days (scheduleData : List DayInfo)
    (hdistinct : (scheduleData.map (fun day => day.date)).Nodup) :
    ∃ out, FileDb.getScheduledDates scheduleData none none = .resolved out
      ∧ out.Nodup
      ∧ out = scheduleData.map (fun day => day.date)
      ∧ (∀ date, date ∈ out ↔ ∃ day ∈ scheduleData, day.date = date)
      ∧ ((∀ day ∈ scheduleData, day.events ≠ []) →
          ∀ date, date ∈ out ↔ ∃ day ∈ scheduleData, day.date = date ∧ day.events ≠ []) := by
  refine ⟨scheduleData.map (fun day => day.date), getScheduledDates_noArgs scheduleData,
    hdistinct, rfl, ?_, ?_⟩
  · intro date
    simp [List.mem_map]
  · intro hall date
    simp only [List.mem_map]
    constructor
    · rintro ⟨day, hday, hd⟩
      exact ⟨day, hday, hd, hall day hday⟩
    · rintro ⟨day, hday, hd, -⟩
      exact ⟨day, hday, hd⟩

/-- A witness of `getScheduledDates_all_days`: the sample dataset has one day per date. -/
theorem getScheduledDates_all_days_witness :
    (sampleSchedule.map (fun day => day.date)).Nodup
      ∧ ∃ out, FileDb.getScheduledDates sampleSchedule none none = .resolved out
        ∧ out.Nodup
        ∧ out = sampleSchedule.map (fun day => day.date)
        ∧ (∀ date, date ∈ out ↔ ∃ day ∈ sampleSchedule, day.date = date)
        ∧ ((∀ day ∈ sampleSchedule, day.events ≠ []) →
            ∀ date, date ∈ out ↔ ∃ day ∈ sampleSchedule, day.date = date ∧ day.events ≠ []) :=
  ⟨by decide, getScheduledDates_all_days sampleSchedule (by decide)⟩

/-- C14 (the code at the failing inputs): over the sample dataset, seeded into both stores,
`FileDb.getTeamSchedule("Outlaws")` has the two entries of the Houston Outlaws while
`MongoDb.getTeamSchedule("Outlaws")` resolves to `undefined`; for the full name
`Dallas Fuel` the database store resolves to whole day documents, one of them with an event that
does not include the team; and for a team without events the file store returns the empty list
while the database store resolves to `undefined`. -/
theorem getTeamSchedule_backends_differ :
    FileDb.getTeamSchedule sampleSchedule "Outlaws"
        = [ { date := "2019-01-05",
              event := { time := "19:00", away := "Houston Outlaws", home := "Paris Eternal" } },
            { date := "2019-01-10",
              event := { time := "19:00", away := "Toronto Defiant", home := "Houston Outlaws" } } ]
      ∧ MongoDb.getTeamSchedule none sampleSchedule "Outlaws" = .resolved none
      ∧ FileDb.getTeamSchedule sampleSchedule "Dallas Fuel"
        = [ { date := "2019-01-05",
              event := { time := "21:00", away := "Dallas Fuel", home := "Seoul Dynasty" } },
            { date := "2019-01-24",
              event := { time := "20:00", away := "Paris Eternal", home := "Dallas Fuel" } } ]
      ∧ MongoDb.getTeamSchedule none sampleSchedule "Dallas Fuel"
        = .resolved (some
          [ { date := "2019-01-05",
              events := [ { time := "19:00", away := "Houston Outlaws", home := "Paris Eternal" },
                          { time := "21:00", away := "Dallas Fuel", home := "Seoul Dynasty" } ] },
            { date := "2019-01-24",
              events := [ { time := "20:00", away := "Paris Eternal", home := "Dallas Fuel" } ] } ])
      ∧ FileDb.getTeamSchedule sampleSchedule "Nonexistent Team" = []
      ∧ MongoDb.getTeamSchedule none sampleSchedule "Nonexistent Team" = .resolved none := by
  decide

/-- C15 (the code on every input): when the driver reports no error, `MongoDb.getDaySchedule`
resolves to `undefined` if a document with the date exists, and its callback throws if none
exists; it never resolves to a document.  On the sample collection the date `2019-01-05` is
present and the result is `undefined`; the date `2019-02-01` is absent and the callback throws. -/
theorem mongoGetDaySchedule_never_document (collection : List DayInfo) (date : String) :
    ((∃ doc ∈ collection, doc.date = date) →
        MongoDb.getDaySchedule none collection date = .resolved none)
      ∧ ((∀ doc ∈ collection, doc.date ≠ date) →
        ∃ err, MongoDb.getDaySchedule none collection date = .threw err)
      ∧ (∀ doc, MongoDb.getDaySchedule none collection date ≠ .resolved (some doc))
      ∧ MongoDb.getDaySchedule none sampleSchedule "2019-01-05" = .resolved none
      ∧ (∃ doc ∈ sampleSchedule, doc.date = "2019-01-05")
      ∧ MongoDb.getDaySchedule none sampleSchedule "2019-02-01"
          = .threw "TypeError: Cannot read property 'length' of null" := by
  refine ⟨?_, ?_, ?_, by decide, by decide, by decide⟩
  · rintro ⟨doc, hdoc, hdate⟩
    have hsome : (findOneByDate collection date).isSome = true := by
      simp only [findOneByDate, List.find?_isSome]
      exact ⟨doc, hdoc, by simp [hdate]⟩
    obtain ⟨found, hfound⟩ := Option.isSome_iff_exists.mp hsome
    simp [MongoDb.getDaySchedule, hfound]
  · intro hnone
    have hfind : findOneByDate collection date = none := by
      simp only [findOneByDate, List.find?_eq_none]
      intro doc hdoc
      simp [hnone doc hdoc]
    exact ⟨"TypeError: Cannot read property 'length' of null",
      by simp [MongoDb.getDaySchedule, hfind]⟩
  · intro doc
    unfold MongoDb.getDaySchedule
    simp only []
    cases findOneByDate collection date <;> simp


/-! ## The short name and the tables: proofs -/

theorem lastIndexOf_ge (c : Char) (cs : List Char) : -1 ≤ lastIndexOf c cs := by
  induction cs with
  | nil => simp [lastIndexOf]
  | cons x xs ih =>
    unfold lastIndexOf
    simp only []
    split_ifs <;> omega

theorem lastIndexOf_of_not_mem {c : Char} {cs : List Char} (h : c ∉ cs) :
    lastIndexOf c cs = -1 := by
  induction cs with
  | nil => rfl
  | cons x xs ih =>
    have hx : x ≠ c := fun hxc => h (by simp [hxc])
    have hxs : c ∉ xs := fun hc => h (by simp [hc])
    unfold lastIndexOf
    simp only [ih hxs, if_true, if_neg hx]

/-- The text after the last occurrence of `c` splits the list: what stands in front is empty or
ends in `c`, and the text itself has no `c`. -/
theorem substring_lastIndexOf_split (c : Char) (cs : List Char) :
    ∃ front, cs = front ++ substring cs (lastIndexOf c cs + 1)
      ∧ (front = [] ∨ front.getLast? = some c)
      ∧ c ∉ substring cs (lastIndexOf c cs + 1) := by
  induction cs with
  | nil => exact ⟨[], by simp [substring, lastIndexOf], Or.inl rfl, by simp [substring]⟩
  | cons x xs ih =>
    obtain ⟨front, hsplit, hfront, hnot⟩ := ih
    have hge := lastIndexOf_ge c xs
    by_cases hr : lastIndexOf c xs = -1
    · have hxs : substring xs (lastIndexOf c xs + 1) = xs := by
        rw [hr]; simp [substring]
      rw [hxs] at hnot
      by_cases hx : x = c
      · have hl : lastIndexOf c (x :: xs) = 0 := by
          unfold lastIndexOf
          simp only [hr, if_true, if_pos hx]
        refine ⟨[c], ?_, Or.inr rfl, ?_⟩
        · rw [hl, hx]; simp [substring]
        · rw [hl]; simpa [substring] using hnot
      · have hl : lastIndexOf c (x :: xs) = -1 := by
          unfold lastIndexOf
          simp only [hr, if_true, if_neg hx]
        refine ⟨[], ?_, Or.inl rfl, ?_⟩
        · rw [hl]; simp [substring]
        · rw [hl]
          simp only [substring, Int.reduceNeg, neg_add_cancel, Int.toNat_zero, List.drop_zero,
            List.mem_cons, not_or]
          exact ⟨fun h => hx h.symm, hnot⟩
    · have hl : lastIndexOf c (x :: xs) = lastIndexOf c xs + 1 := by
        rw [lastIndexOf]
        simp only [if_neg hr]
      have htn : (lastIndexOf c xs + 1 + 1).toNat = (lastIndexOf c xs + 1).toNat + 1 := by
        omega
      have hsub : substring (x :: xs) (lastIndexOf c (x :: xs) + 1)
          = substring xs (lastIndexOf c xs + 1) := by
        rw [hl]
        simp only [substring, htn, List.drop_succ_cons]
      have hpos : 1 ≤ (lastIndexOf c xs + 1).toNat := by omega
      have hne : front ≠ [] := by
        intro hnil
        rw [hnil, List.nil_append] at hsplit
        have hlen := congrArg List.length hsplit
        simp only [substring, List.length_drop] at hlen
        have hxs : xs = [] := by
          cases xs with
          | nil => rfl
          | cons y ys => simp only [List.length_cons] at hlen; omega
        rw [hxs] at hr
        exact hr rfl
      refine ⟨x :: front, ?_, Or.inr ?_, ?_⟩
      · rw [hsub, List.cons_append, ← hsplit]
      · rcases hfront with h | h
        · exact absurd h hne
        · obtain ⟨y, ys, rfl⟩ := List.exists_cons_of_ne_nil hne
          rw [List.getLast?_cons_cons]; exact h
      · rw [hsub]; exact hnot

/-- C18: `getTeamShortName(s)` is the text of `s` after its last space, letters unchanged: it is a
suffix of `s` without a space, `s` is a front part that is empty or ends in a space followed by
the result, a string without a space is returned whole, and the function is idempotent;
`Houston Outlaws` gives `Outlaws` and `New York Excelsior` gives `Excelsior`. -/
theorem getTeamShortName_spec (s : String) :
    List.IsSuffix (getTeamShortName s).data s.data
      ∧ ' ' ∉ (getTeamShortName s).data
      ∧ (∃ front, s.data = front ++ (getTeamShortName s).data
          ∧ (front = [] ∨ front.getLast? = some ' '))
      ∧ (' ' ∉ s.data → getTeamShortName s = s)
      ∧ getTeamShortName (getTeamShortName s) = getTeamShortName s
      ∧ getTeamShortName "Houston Outlaws" = "Outlaws"
      ∧ getTeamShortName "New York Excelsior" = "Excelsior" := by
  obtain ⟨front, hsplit, hfront, hnot⟩ := substring_lastIndexOf_split ' ' s.data
  have hwhole : ∀ t : String, ' ' ∉ t.data → getTeamShortName t = t := by
    intro t ht
    unfold getTeamShortName
    rw [lastIndexOf_of_not_mem ht]
    simp [substring]
  refine ⟨⟨front, hsplit.symm⟩, hnot, ⟨front, hsplit, hfront⟩, hwhole s, hwhole _ hnot,
    by decide, by decide⟩

/-- C17: the roster has twenty entries, all different, with different short names, also after
lower-casing; the roster of `BaseDB.js` is the same list. -/
theorem teamNames_roster :
    teamNames.length = 20
      ∧ teamNames.Nodup
      ∧ (teamNames.map getTeamShortName).Nodup
      ∧ (teamNames.map (fun team => toLowerCase (getTeamShortName team))).Nodup
      ∧ BaseDB.teamNames = teamNames := by
  decide

/-- C19: every entry of `teamLogos` is stored under the lower-cased short name of its team, and no
two entries have the same name; so for the table of `BaseDB.js`, which has the same keys, names
and file names. -/
theorem teamLogos_keys :
    (∀ entry ∈ teamLogos, entry.1 = toLowerCase (getTeamShortName entry.2.name))
      ∧ (teamLogos.map (fun entry => entry.2.name)).Nodup
      ∧ (∀ entry ∈ BaseDB.teamLogos, entry.1 = toLowerCase (getTeamShortName entry.2.name))
      ∧ (BaseDB.teamLogos.map (fun entry => entry.2.name)).Nodup
      ∧ BaseDB.teamLogos = teamLogos := by
  decide

/-- C20: on a record `{date, event}` the test of `eventIncludesTeam` is the test on the contained
event. -/
theorem eventIncludesTeam_wrapper (event : Event) (date teamName : String) :
    eventIncludesTeam (.info { date := date, event := event }) teamName
      = eventIncludesTeam (.plain event) teamName := by
  rfl

/-- C16 (the code at the failing inputs): `parseTeamArg("0")` of `tools.js` returns
`Atlanta Reign` while the function of `Discord.js` throws, as it does for every numeric argument;
`validateTeamArg` of `Discord.js` throws for every argument and so never returns what the function
of `tools.js` returns.  The two instruction functions agree with those of `tools.js`, and so does
`parseTeamArg` on arguments that are not numeric. -/
theorem discord_helpers_differ :
    parseTeamArg "0" = some "Atlanta Reign"
      ∧ Discord.parseTeamArg "0" = .threw "ReferenceError: FileDb is not defined"
      ∧ validateTeamArg "Houston Outlaws" = .valid
      ∧ Discord.validateTeamArg "Houston Outlaws"
          = .threw "ReferenceError: getTeamShortName is not defined"
      ∧ Discord.validateTeamArg "0" = .threw "ReferenceError: teamNames is not defined"
      ∧ (∀ val, isNaN val = false → ∃ err, Discord.parseTeamArg val = .threw err)
      ∧ (∀ val, ∃ err, Discord.validateTeamArg val = .threw err)
      ∧ (∀ val, isNaN val = true → Discord.parseTeamArg val = .returned (parseTeamArg val))
      ∧ (∀ val, Discord.validateInstructionArg val = .returned (validateInstructionArg val))
      ∧ (∀ val, Discord.parseInstructionArg val = .returned (parseInstructionArg val)) := by
  refine ⟨by decide, by decide, by decide, by decide, by decide, ?_, ?_, ?_, ?_, ?_⟩
  · intro val h
    exact ⟨_, by simp only [Discord.parseTeamArg, h]; rfl⟩
  · intro val
    cases h : isNaN val
    · exact ⟨referenceError "teamNames", by simp [Discord.validateTeamArg, h]⟩
    · exact ⟨referenceError "getTeamShortName", by simp [Discord.validateTeamArg, h]⟩
  · intro val h
    simp [Discord.parseTeamArg, parseTeamArg, h]
  · intro val
    unfold Discord.validateInstructionArg validateInstructionArg
    have : Discord.validInstructionArgs = validInstructionArgs := rfl
    rw [this]
    split <;> rfl
  · intro val
    unfold Discord.parseInstructionArg parseInstructionArg
    simp only []
    split <;> rfl


/-! ## The flat function, and validation followed by parsing -/

/-- C21: over the same dataset the promise of `getTeamSchedule` of `tools.js` resolves to the list
that `FileDb.getTeamSchedule` returns, entry for entry and in the same order. -/
theorem getTeamSchedule_flat_eq_class (scheduleData : List DayInfo) (teamName : String) :
    getTeamSchedule scheduleData teamName
        = .resolved (FileDb.getTeamSchedule scheduleData teamName)
      ∧ (∀ out, getTeamSchedule scheduleData teamName = .resolved out →
          out = FileDb.getTeamSchedule scheduleData teamName
            ∧ out.length = (FileDb.getTeamSchedule scheduleData teamName).length
            ∧ ∀ i, out.get? i = (FileDb.getTeamSchedule scheduleData teamName).get? i) := by
  have h : getTeamSchedule scheduleData teamName
      = .resolved (FileDb.getTeamSchedule scheduleData teamName) := rfl
  refine ⟨h, ?_⟩
  intro out hout
  rw [h] at hout
  injection hout with hout
  subst hout
  exact ⟨rfl, rfl, fun _ => rfl⟩

/-- C22 (the code at the failing inputs): the arguments `1.5`, `01` and `1e0` convert to numbers
in the range, so `validateTeamArg` returns `true`, but none is the name of an index of the roster
and `parseTeamArg` returns `undefined`. -/
theorem parseTeamArg_validated_undefined :
    isNaN "1.5" = false ∧ validateTeamArg "1.5" = .valid ∧ parseTeamArg "1.5" = none
      ∧ isNaN "01" = false ∧ validateTeamArg "01" = .valid ∧ parseTeamArg "01" = none
      ∧ isNaN "1e0" = false ∧ validateTeamArg "1e0" = .valid ∧ parseTeamArg "1e0" = none
      ∧ toNumber "1.5" = .fin false 15 (-1)
      ∧ ¬ (∃ name ∈ teamNames, parseTeamArg "1.5" = some name) := by
  decide

/-- C24: `validateInstructionArg` returns `true` exactly when `parseInstructionArg` does not return
`undefined`; and a value that `parseInstructionArg` returns is accepted by
`validateInstructionArg` and parsed to itself. -/
theorem instructionArg_validate_parse (val : String) :
    (validateInstructionArg val = .valid ↔ parseInstructionArg val ≠ none)
      ∧ (∀ result, parseInstructionArg val = some result →
          validateInstructionArg result = .valid ∧ parseInstructionArg result = some result
            ∧ (result = "list" ∨ result = "schedule" ∨ result = "reminder")) := by
  have hvalid : validateInstructionArg val = .valid ↔
      toLowerCase val ∈ validInstructionArgs := by
    unfold validateInstructionArg
    by_cases h : validInstructionArgs.contains (toLowerCase val) = true
    · rw [if_pos h]
      exact ⟨fun _ => (contains_eq_true_iff _ _).mp h, fun _ => rfl⟩
    · rw [if_neg h]
      exact ⟨fun hv => (by cases hv), fun hm => absurd ((contains_eq_true_iff _ _).mpr hm) h⟩
  have hmem : ∀ w, w ∈ validInstructionArgs ↔
      (w = "list" ∨ w = "ls" ∨ w = "schedule" ∨ w = "sched" ∨ w = "reminder" ∨ w = "remind") := by
    intro w
    simp [validInstructionArgs]
  constructor
  · rw [hvalid]
    rcases parseInstructionArg_cases val with ⟨hp, h⟩ | ⟨hp, h⟩ | ⟨hp, h⟩ | ⟨hp, h⟩
    · rw [hp, hmem]; exact ⟨fun _ => by simp, fun _ => by tauto⟩
    · rw [hp, hmem]; exact ⟨fun _ => by simp, fun _ => by tauto⟩
    · rw [hp, hmem]; exact ⟨fun _ => by simp, fun _ => by tauto⟩
    · rw [hp]; exact ⟨fun hm => absurd hm h, fun hne => absurd rfl hne⟩
  · intro result hres
    rcases parseInstructionArg_cases val with ⟨hp, -⟩ | ⟨hp, -⟩ | ⟨hp, -⟩ | ⟨hp, -⟩ <;>
      rw [hp] at hres
    · injection hres with hres; subst hres; decide
    · injection hres with hres; subst hres; decide
    · injection hres with hres; subst hres; decide
    · cases hres


/-- On the roster a name or its short name equals the short name of a team exactly when it equals
the team's name or short name equals the team's name. -/
theorem roster_shortName_match :
    ∀ team ∈ teamNames, ∀ name ∈ teamNames,
      (name = getTeamShortName team ∨ getTeamShortName name = getTeamShortName team)
        ↔ (name = team ∨ getTeamShortName name = team) := by
  decide

theorem roster_shortName_isNaN : ∀ team ∈ teamNames, isNaN (getTeamShortName team) = true := by
  decide

theorem eventIncludesTeam_shortName {event : Event} {team : String}
    (haway : event.away ∈ teamNames) (hhome : event.home ∈ teamNames)
    (hteam : team ∈ teamNames) :
    eventIncludesTeam (.plain event) (getTeamShortName team)
      = eventIncludesTeam (.plain event) team := by
  have ha := roster_shortName_match team hteam event.away haway
  have hh := roster_shortName_match team hteam event.home hhome
  rw [Bool.eq_iff_iff]
  simp only [eventIncludesTeam, Bool.or_eq_true, beq_iff_eq]
  tauto

theorem teamSchedule_congr (scheduleData : List DayInfo) (s t : String)
    (h : ∀ day ∈ scheduleData, ∀ event ∈ day.events,
      eventIncludesTeam (.plain event) s = eventIncludesTeam (.plain event) t) :
    FileDb.getTeamSchedule scheduleData s = FileDb.getTeamSchedule scheduleData t := by
  have hs : ∀ name, FileDb.getTeamSchedule scheduleData name
      = (allPairs scheduleData).filter
          (fun p => eventIncludesTeam (.plain p.event) name) := by
    intro name
    simp [FileDb.getTeamSchedule, outerLoop_eq]
  rw [hs s, hs t]
  apply List.filter_congr
  intro p hp
  simp only [allPairs, List.mem_flatMap, List.mem_map] at hp
  obtain ⟨day, hday, event, hev, rfl⟩ := hp
  exact h day hday event hev

/-- C23 (counterexample): the sample dataset names its teams by roster names, `outlaws` equals the
short name of `Houston Outlaws` up to letter case and is accepted by `validateTeamArg`, and
`parseTeamArg` returns it unchanged; but the schedule of `outlaws` is empty while the schedule of
`Houston Outlaws` has two entries. -/
theorem lowercase_shortName_schedule :
    CanonicalNames sampleSchedule
      ∧ "Houston Outlaws" ∈ teamNames
      ∧ sameUpToCase "outlaws" (getTeamShortName "Houston Outlaws")
      ∧ validateTeamArg "outlaws" = .valid
      ∧ parseTeamArg "outlaws" = some "outlaws"
      ∧ FileDb.getTeamSchedule sampleSchedule "outlaws" = []
      ∧ getTeamSchedule sampleSchedule "outlaws" = .resolved []
      ∧ FileDb.getTeamSchedule sampleSchedule "Houston Outlaws"
        = [ { date := "2019-01-05",
              event := { time := "19:00", away := "Houston Outlaws", home := "Paris Eternal" } },
            { date := "2019-01-10",
              event := { time := "19:00", away := "Toronto Defiant", home := "Houston Outlaws" } } ]
      ∧ FileDb.getTeamSchedule sampleSchedule "outlaws"
          ≠ FileDb.getTeamSchedule sampleSchedule "Houston Outlaws"
      ∧ getTeamSchedule sampleSchedule "outlaws"
          ≠ getTeamSchedule sampleSchedule "Houston Outlaws" := by
  decide

/-- C23 (amended): over a dataset that names its teams by roster names, for a roster team and the
string `s` that is its short name in the same letter case and that `validateTeamArg` accepts,
`parseTeamArg` returns `s` and the schedule of `s` is the schedule of the team's full name, from
`FileDb.getTeamSchedule` and from `getTeamSchedule` of `tools.js` alike. -/
theorem shortName_schedule (scheduleData : List DayInfo) (hcanon : CanonicalNames scheduleData)
    (team : String) (hteam : team ∈ teamNames) (s : String) (hs : s = getTeamShortName team)
    (hvalid : validateTeamArg s = .valid) :
    validateTeamArg s = .valid
      ∧ parseTeamArg s = some s
      ∧ FileDb.getTeamSchedule scheduleData s = FileDb.getTeamSchedule scheduleData team
      ∧ getTeamSchedule scheduleData s = getTeamSchedule scheduleData team := by
  have hnan : isNaN s = true := by rw [hs]; exact roster_shortName_isNaN team hteam
  have heq : FileDb.getTeamSchedule scheduleData s
      = FileDb.getTeamSchedule scheduleData team := by
    apply teamSchedule_congr
    intro day hday event hev
    rw [hs]
    exact eventIncludesTeam_shortName (hcanon day hday event hev).1
      (hcanon day hday event hev).2 hteam
  refine ⟨hvalid, by simp [parseTeamArg, hnan], heq, ?_⟩
  show Settled.resolved (FileDb.getTeamSchedule scheduleData s)
    = Settled.resolved (FileDb.getTeamSchedule scheduleData team)
  rw [heq]

/-- A witness of `shortName_schedule`: `Outlaws` for `Houston Outlaws` on the sample dataset. -/
theorem shortName_schedule_witness :
    CanonicalNames sampleSchedule
      ∧ "Houston Outlaws" ∈ teamNames
      ∧ "Outlaws" = getTeamShortName "Houston Outlaws"
      ∧ validateTeamArg "Outlaws" = .valid
      ∧ parseTeamArg "Outlaws" = some "Outlaws"
      ∧ FileDb.getTeamSchedule sampleSchedule "Outlaws"
          = FileDb.getTeamSchedule sampleSchedule "Houston Outlaws"
      ∧ getTeamSchedule sampleSchedule "Outlaws"
          = getTeamSchedule sampleSchedule "Houston Outlaws" :=
  ⟨by decide, by decide, by decide,
    shortName_schedule sampleSchedule (by decide) "Houston Outlaws" (by decide) "Outlaws"
      (by decide) (by decide)⟩

end Ganymede
